import Mathlib

/-!
Shallow embedding of the `calendarize` repository (files `calendarize.py` and
`film_calendar.py`): a transit-time table between cinema venues, a catalog of
film screenings, a pairwise feasibility relation between screenings, and a
two-phase schedule optimization (maximize attendance, then minimize commute)
whose constraint model is built by the Python code and solved by an external
CP-SAT solver.

Timestamps are embedded as integer minutes within August 2022 (all screenings
fall between 2022-08-13 and 2022-08-20); `august d h m` is the timestamp of
day `d` at `h:m`.  A Python `datetime.date()` then corresponds to the floor
division of the timestamp by 1440, and `timedelta(minutes=k)` to adding `k`.
Python dict lookups (which raise `KeyError` when absent) are embedded as
`Option`-valued association-list lookups.
-/

namespace Calendarize

/-- A transit-cost table: the shape of the nested Python dict
`{venue: {venue: minutes}}`, as an association list. -/
abbrev TransitTable := List (String × List (String × Int))

/-- The `transit_times` dict of `calendarize.py` (lines 12-43). -/
def transit_times : TransitTable :=
  [("STA", [("CAM", 20), ("EVR", 15), ("FLH", 15), ("VUE", 15)]),
   ("CAM", [("EVR", 20), ("FLH", 10), ("STA", 20), ("VUE", 30)]),
   ("EVR", [("CAM", 20), ("FLH", 20), ("STA", 15), ("VUE", 10)]),
   ("FLH", [("CAM", 10), ("EVR", 20), ("STA", 15), ("VUE", 30)]),
   ("VUE", [("CAM", 30), ("EVR", 10), ("FLH", 30), ("STA", 15)])]

/-- Nested dict access `t[a][b]`; `none` models a Python `KeyError`. -/
def lookup2 (t : TransitTable) (a b : String) : Option Int :=
  (t.lookup a).bind fun row => row.lookup b

/-- The load-time symmetry assertion loop of `calendarize.py` (lines 44-46):
for every venue `prev` and every entry `(next_, cost)` of its row, assert
`transit_times[next_][prev] == cost`.  The check returns `false` exactly when
some assertion fails or the reverse lookup raises `KeyError`. -/
def symmetryCheck (t : TransitTable) : Bool :=
  t.all fun row => row.2.all fun e => lookup2 t e.1 row.1 == some e.2

/-- The `Event` class of `calendarize.py` (lines 49-55).  The field `end_`
embeds the Python attribute `end` (a Lean keyword). -/
structure Event where
  title : String
  begin : Int
  running_time : Int
  end_ : Int
  venue : String
  deriving DecidableEq

/-- `Event.__init__` (lines 50-55): stores the given fields unchanged and
derives `end = begin + running_time`.  The constructor performs no
validation and has no failure path. -/
def mkEvent (title : String) (begin : Int) (running_time : Int) (venue : String) : Event :=
  ⟨title, begin, running_time, begin + running_time, venue⟩

/-- `Event.minutes_from` (lines 57-60): 5 minutes between two events at the
same venue, otherwise the table entry `transit_times[prev.venue][self.venue]`
(the `getD 0` default is never taken on venues of the table, where every
cross-venue entry is present). -/
def Event.minutes_from (self prev : Event) : Int :=
  if self.venue = prev.venue then 5
  else (lookup2 transit_times prev.venue self.venue).getD 0

/-- `Event.eta_from` (lines 62-63): earliest start reachable after `prev`. -/
def Event.eta_from (self prev : Event) : Int :=
  prev.end_ + self.minutes_from prev

/-- The calendar date of an event's start: `begin.date()` in the source,
i.e. the day index of the timestamp (floor division by minutes per day). -/
def Event.date (e : Event) : Int :=
  e.begin.ediv 1440

/-- Timestamp (in minutes) of August `day`, 2022 at `hour:minute`. -/
def august (day hour minute : Int) : Int :=
  day * 1440 + hour * 60 + minute

/-- The screening list literal of `calendarize.py` (lines 67-118), in source
order, before sorting. -/
def inputEvents : List Event :=
  [mkEvent "After Yang" (august 20 19 0) 96 "VUE",
   mkEvent "Fogaréu" (august 16 16 30) 100 "VUE",
   mkEvent "Fogaréu" (august 17 19 0) 100 "FLH",
   mkEvent "Leonor Will Never Die" (august 16 20 35) 101 "FLH",
   mkEvent "Leonor Will Never Die" (august 18 15 30) 101 "VUE",
   mkEvent "LOLA" (august 15 21 0) 78 "EVR",
   mkEvent "LOLA" (august 19 16 0) 78 "VUE",
   mkEvent "Full Time" (august 17 18 15) 87 "VUE",
   mkEvent "Full Time" (august 18 16 0) 87 "FLH",
   mkEvent "Special Delivery" (august 18 21 35) 109 "VUE",
   mkEvent "Special Delivery" (august 19 16 20) 109 "VUE",
   mkEvent "Anonymous Club" (august 15 19 0) 83 "CAM",
   mkEvent "Anonymous Club" (august 17 21 30) 83 "VUE",
   mkEvent "Hallelujah" (august 17 15 50) 115 "VUE",
   mkEvent "Hallelujah" (august 20 16 50) 115 "FLH",
   mkEvent "The Territory" (august 13 14 0) 85 "VUE",
   mkEvent "The Territory" (august 19 18 0) 85 "EVR",
   mkEvent "The Forgiven" (august 17 20 35) 117 "VUE",
   mkEvent "The Score" (august 18 19 0) 114 "VUE",
   mkEvent "The Score" (august 20 13 30) 114 "FLH",
   mkEvent "AEIOU" (august 15 21 10) 104 "VUE",
   mkEvent "AEIOU" (august 16 14 0) 104 "FLH",
   mkEvent "Axiom" (august 14 17 30) 112 "VUE",
   mkEvent "Axiom" (august 16 11 30) 112 "VUE",
   mkEvent "Phantom Project" (august 14 14 15) 97 "VUE",
   mkEvent "Phantom Project" (august 15 21 20) 97 "CAM",
   mkEvent "The Plains" (august 13 18 30) 180 "FLH",
   mkEvent "Shadow" (august 16 18 30) 56 "VUE",
   mkEvent "EIFF New Visions" (august 14 15 40) 68 "FLH",
   mkEvent "Scotland\x27s Voices" (august 13 15 30) 79 "FLH",
   mkEvent "The Making of A Bear Named Wojtek" (august 14 11 30) 60 "FLH"]

/-- The comparison key of `sorted(..., key=lambda f: f.begin)`. -/
def beginLE (a b : Event) : Bool :=
  decide (a.begin ≤ b.begin)

/-- `events = sorted([...], key=lambda f: f.begin)` (lines 67-120): the
catalog consumed by the optimizer, ascending by start time (Python's sort
and `mergeSort` are both stable). -/
def events : List Event :=
  inputEvents.mergeSort beginLE

instance : Inhabited Event :=
  ⟨mkEvent "" 0 0 ""⟩

/-- The pairwise condition enforced by the constraint loop (lines 139-149)
for a pair `i < j`: the `no_overlaps` test `events[j].begin >=
events[j].eta_from(events[i])` conjoined with the `no_duplicates` test
`events[i].title != events[j].title`.  Both are evaluated to constants at
model-build time, so the constraint forbids selecting both events exactly
when this Boolean is `false`. -/
def pairFeasible (p q : Event) : Bool :=
  decide (q.begin ≥ q.eta_from p) && decide (p.title ≠ q.title)

/-- `attendance == sum(appearances)` (line 129): the number of selected
occurrences of an assignment. -/
def att (a : List Bool) : Nat :=
  a.countP fun b => b

/-- Satisfaction of the hard constraints (lines 139-149): for every pair
`i < j` in catalog order, if both are selected then `pairFeasible` holds. -/
def feasible (es : List Event) (a : List Bool) : Prop :=
  ∀ i j : Fin es.length, (i : Nat) < (j : Nat) →
    a.getD i false = true → a.getD j false = true →
    pairFeasible (es.get i) (es.get j) = true

instance (es : List Event) (a : List Bool) : Decidable (feasible es a) := by
  unfold feasible; infer_instance

/-- All boolean assignments of a given length (the search space of the
solver: one decision per occurrence). -/
def allAssignments : Nat → List (List Bool)
  | 0 => [[]]
  | m + 1 => (allAssignments m).map (false :: ·) ++ (allAssignments m).map (true :: ·)

/-- The largest selected index strictly below `j`: the immediate selected
predecessor, i.e. the unique `i < j` with `a[i]` selected and no selected
index strictly between `i` and `j`. -/
def prevSelected (a : List Bool) : Nat → Option Nat
  | 0 => none
  | j + 1 => if a.getD j false = true then some j else prevSelected a j

/-- The transit minutes attributed to position `j` by the same-day transit
constraints (lines 151-155): `transits[j]` is forced to
`events[j].minutes_from(events[i])` exactly when `j` is selected, `i` is its
immediate selected predecessor and both fall on the same calendar date;
otherwise `transits[j]` is unconstrained and takes the value `0` under
minimization of `commute`. -/
def transitAt (es : List Event) (a : List Bool) (j : Nat) : Int :=
  if a.getD j false = true then
    match prevSelected a j with
    | some i =>
        if (es.getD i default).date = (es.getD j default).date
        then Event.minutes_from (es.getD j default) (es.getD i default)
        else 0
    | none => 0
  else 0

/-- `commute == sum(transits)` (line 130), with each `transits[j]` at the
minimal value consistent with the constraints for the given assignment. -/
def commute (es : List Event) (a : List Bool) : Int :=
  ((List.range es.length).map (transitAt es a)).sum

/-- Maximum of `f` over a list (0 on the empty list). -/
def listMaxBy (f : α → Nat) (l : List α) : Nat :=
  l.foldr (fun x m => max (f x) m) 0

/-- Minimum of `f` over a list (0 on the empty list). -/
def minOver (f : α → Int) : List α → Int
  | [] => 0
  | [x] => f x
  | x :: y :: t => min (f x) (minOver f (y :: t))

/-- Modelled from the spec: the feasible region explored exactly by the
external CP-SAT solver (`solver.Solve`, lines 185-193, not part of src/) —
every boolean assignment over the catalog satisfying the hard constraints. -/
def feasibleAssignments (es : List Event) : List (List Bool) :=
  (allAssignments es.length).filter fun a => decide (feasible es a)

/-- Modelled from the spec: the phase-1 optimum `model.Maximize(attendance)`
(lines 157-158, computed by the external solver, not part of src/): the
maximum attendance over all feasible assignments. -/
def maxAttendance (es : List Event) : Nat :=
  listMaxBy att (feasibleAssignments es)

/-- Modelled from the spec: the feasible assignments admitted by phase 2
after `model.Add(attendance == solver.Value(attendance))` (line 190). -/
def optimalAssignments (es : List Event) : List (List Bool) :=
  (feasibleAssignments es).filter fun a => att a == maxAttendance es

/-- Modelled from the spec: the phase-2 optimum `model.Minimize(commute)`
(line 191, computed by the external solver, not part of src/). -/
def minCommute (es : List Event) : Int :=
  minOver (commute es) (optimalAssignments es)

/-- Modelled from the spec: the assignment returned by the two-phase exact
solving procedure (the second `solver.Solve`, line 193, performed by the
external CP-SAT solver, not part of src/): a feasible assignment of maximum
attendance and, among those, minimum commute. -/
def solveTwoPhase (es : List Event) : List Bool :=
  ((optimalAssignments es).find? fun a => commute es a == minCommute es).getD
    (List.replicate es.length false)

/-- The `transit_times` dict of `film_calendar.py` (lines 11-42), textually
identical to the one of `calendarize.py`. -/
def film_transit_times : TransitTable :=
  [("STA", [("CAM", 20), ("EVR", 15), ("FLH", 15), ("VUE", 15)]),
   ("CAM", [("EVR", 20), ("FLH", 10), ("STA", 20), ("VUE", 30)]),
   ("EVR", [("CAM", 20), ("FLH", 20), ("STA", 15), ("VUE", 10)]),
   ("FLH", [("CAM", 10), ("EVR", 20), ("STA", 15), ("VUE", 30)]),
   ("VUE", [("CAM", 30), ("EVR", 10), ("FLH", 30), ("STA", 15)])]

/-- The `Film` class of `film_calendar.py` (lines 48-54). -/
structure Film where
  title : String
  begin : Int
  running_time : Int
  end_ : Int
  venue : String
  deriving DecidableEq

/-- `Film.__init__` (lines 49-54). -/
def mkFilm (title : String) (begin : Int) (running_time : Int) (venue : String) : Film :=
  ⟨title, begin, running_time, begin + running_time, venue⟩

/-- `Film.minutes_from` (lines 56-59). -/
def Film.minutes_from (self prev : Film) : Int :=
  if self.venue = prev.venue then 5
  else (lookup2 film_transit_times prev.venue self.venue).getD 0

/-- `Film.eta_from` (lines 61-62). -/
def Film.eta_from (self prev : Film) : Int :=
  prev.end_ + self.minutes_from prev

/-- The screening list literal of `film_calendar.py` (lines 66-117), in
source order, before sorting. -/
def inputScreenings : List Film :=
  [mkFilm "After Yang" (august 20 19 0) 96 "VUE",
   mkFilm "Fogaréu" (august 16 16 30) 100 "VUE",
   mkFilm "Fogaréu" (august 17 19 0) 100 "FLH",
   mkFilm "Leonor Will Never Die" (august 16 20 35) 101 "FLH",
   mkFilm "Leonor Will Never Die" (august 18 15 30) 101 "VUE",
   mkFilm "LOLA" (august 15 21 0) 78 "EVR",
   mkFilm "LOLA" (august 19 16 0) 78 "VUE",
   mkFilm "Full Time" (august 17 18 15) 87 "VUE",
   mkFilm "Full Time" (august 18 16 0) 87 "FLH",
   mkFilm "Special Delivery" (august 18 21 35) 109 "VUE",
   mkFilm "Special Delivery" (august 19 16 20) 109 "VUE",
   mkFilm "Anonymous Club" (august 15 19 0) 83 "CAM",
   mkFilm "Anonymous Club" (august 17 21 30) 83 "VUE",
   mkFilm "Hallelujah" (august 17 15 50) 115 "VUE",
   mkFilm "Hallelujah" (august 20 16 50) 115 "FLH",
   mkFilm "The Territory" (august 13 14 0) 85 "VUE",
   mkFilm "The Territory" (august 19 18 0) 85 "EVR",
   mkFilm "The Forgiven" (august 17 20 35) 117 "VUE",
   mkFilm "The Score" (august 18 19 0) 114 "VUE",
   mkFilm "The Score" (august 20 13 30) 114 "FLH",
   mkFilm "AEIOU" (august 15 21 10) 104 "VUE",
   mkFilm "AEIOU" (august 16 14 0) 104 "FLH",
   mkFilm "Axiom" (august 14 17 30) 112 "VUE",
   mkFilm "Axiom" (august 16 11 30) 112 "VUE",
   mkFilm "Phantom Project" (august 14 14 15) 97 "VUE",
   mkFilm "Phantom Project" (august 15 21 20) 97 "CAM",
   mkFilm "The Plains" (august 13 18 30) 180 "FLH",
   mkFilm "Shadow" (august 16 18 30) 56 "VUE",
   mkFilm "EIFF New Visions" (august 14 15 40) 68 "FLH",
   mkFilm "Scotland\x27s Voices" (august 13 15 30) 79 "FLH",
   mkFilm "The Making of A Bear Named Wojtek" (august 14 11 30) 60 "FLH"]

/-- The comparison key of `sorted(..., key=lambda f: f.begin)` in
`film_calendar.py`. -/
def filmBeginLE (a b : Film) : Bool :=
  decide (a.begin ≤ b.begin)

/-- `screenings = sorted([...], key=lambda f: f.begin)` (lines 66-119). -/
def screenings : List Film :=
  inputScreenings.mergeSort filmBeginLE

/-- The pairwise condition enforced by the constraint loop of
`film_calendar.py` (lines 132-142): `no_overlaps` and `no_duplicates`. -/
def filmPairFeasible (p q : Film) : Bool :=
  decide (q.begin ≥ q.eta_from p) && decide (p.title ≠ q.title)

/-- Hard-constraint satisfaction for `film_calendar.py`'s model. -/
def filmFeasible (fs : List Film) (a : List Bool) : Prop :=
  ∀ i j : Fin fs.length, (i : Nat) < (j : Nat) →
    a.getD i false = true → a.getD j false = true →
    filmPairFeasible (fs.get i) (fs.get j) = true

instance (fs : List Film) (a : List Bool) : Decidable (filmFeasible fs a) := by
  unfold filmFeasible; infer_instance

/-- Modelled from the spec: the feasible region of `film_calendar.py`'s
model, explored exactly by the external CP-SAT solver (line 172, not part
of src/). -/
def filmFeasibleAssignments (fs : List Film) : List (List Bool) :=
  (allAssignments fs.length).filter fun a => decide (filmFeasible fs a)

/-- Modelled from the spec: the optimum of `model.Maximize(attendance)` in
`film_calendar.py` (lines 145-146, computed by the external solver, not part
of src/). -/
def filmMaxAttendance (fs : List Film) : Nat :=
  listMaxBy att (filmFeasibleAssignments fs)

/-- The field-for-field translation of a `Film` into an `Event`: the two
classes are textual duplicates up to the class name. -/
def Film.toEvent (f : Film) : Event :=
  ⟨f.title, f.begin, f.running_time, f.end_, f.venue⟩

theorem listMaxBy_ge {f : α → Nat} : ∀ {l : List α} {x : α}, x ∈ l → f x ≤ listMaxBy f l := by
  intro l
  induction l with
  | nil => intro x hx; cases hx
  | cons y t ih =>
      intro x hx
      rcases List.mem_cons.mp hx with h | h
      · subst h; exact Nat.le_max_left _ _
      · exact Nat.le_trans (ih h) (Nat.le_max_right _ _)

theorem listMaxBy_attained {f : α → Nat} :
    ∀ {l : List α}, l ≠ [] → ∃ x ∈ l, f x = listMaxBy f l := by
  intro l
  induction l with
  | nil => intro h; exact absurd rfl h
  | cons y t ih =>
      intro _
      cases t with
      | nil =>
          refine ⟨y, List.mem_singleton.mpr rfl, ?_⟩
          simp [listMaxBy]
      | cons z t' =>
          rcases ih (by simp) with ⟨x, hx, hfx⟩
          rcases Nat.le_total (listMaxBy f (z :: t')) (f y) with h | h
          · refine ⟨y, List.mem_cons_self _ _, ?_⟩
            show f y = max (f y) (listMaxBy f (z :: t'))
            omega
          · refine ⟨x, List.mem_cons_of_mem _ hx, ?_⟩
            show f x = max (f y) (listMaxBy f (z :: t'))
            omega

theorem minOver_le {f : α → Int} :
    ∀ {l : List α} {x : α}, x ∈ l → minOver f l ≤ f x := by
  intro l
  induction l with
  | nil => intro x hx; cases hx
  | cons y t ih =>
      intro x hx
      cases t with
      | nil =>
          rcases List.mem_singleton.mp hx with rfl
          simp [minOver]
      | cons z t' =>
          rcases List.mem_cons.mp hx with h | h
          · subst h; exact min_le_left _ _
          · exact le_trans (min_le_right _ _) (ih h)

theorem minOver_attained {f : α → Int} :
    ∀ {l : List α}, l ≠ [] → ∃ x ∈ l, f x = minOver f l := by
  intro l
  induction l with
  | nil => intro h; exact absurd rfl h
  | cons y t ih =>
      intro _
      cases t with
      | nil => exact ⟨y, List.mem_singleton.mpr rfl, by simp [minOver]⟩
      | cons z t' =>
          rcases ih (by simp) with ⟨x, hx, hfx⟩
          rcases le_total (f y) (minOver f (z :: t')) with h | h
          · refine ⟨y, List.mem_cons_self _ _, ?_⟩
            show f y = min (f y) (minOver f (z :: t'))
            omega
          · refine ⟨x, List.mem_cons_of_mem _ hx, ?_⟩
            show f x = min (f y) (minOver f (z :: t'))
            omega

theorem mem_allAssignments : ∀ a : List Bool, a ∈ allAssignments a.length := by
  intro a
  induction a with
  | nil => simp [allAssignments]
  | cons b t ih =>
      show b :: t ∈ allAssignments (t.length + 1)
      unfold allAssignments
      rcases b with _ | _
      · exact List.mem_append_left _ (List.mem_map_of_mem _ ih)
      · exact List.mem_append_right _ (List.mem_map_of_mem _ ih)

theorem length_of_mem_allAssignments :
    ∀ {m : Nat} {a : List Bool}, a ∈ allAssignments m → a.length = m := by
  intro m
  induction m with
  | zero => intro a ha; simp [allAssignments] at ha; simp [ha]
  | succ k ih =>
      intro a ha
      unfold allAssignments at ha
      rcases List.mem_append.mp ha with h | h <;>
        · rcases List.mem_map.mp h with ⟨t, ht, rfl⟩
          simp [ih ht]

theorem getD_replicate_false : ∀ (k i : Nat), (List.replicate k false).getD i false = false := by
  intro k
  induction k with
  | zero => intro i; simp [List.getD]
  | succ m ih =>
      intro i
      cases i with
      | zero => simp [List.replicate]
      | succ i' => simp [List.replicate, ih i']

theorem feasible_replicate (es : List Event) (k : Nat) :
    feasible es (List.replicate k false) := by
  intro i j _ hi _
  rw [getD_replicate_false] at hi
  cases hi

theorem att_replicate (k : Nat) : att (List.replicate k false) = 0 := by
  induction k with
  | zero => rfl
  | succ m ih => simp [att, List.replicate, List.countP_cons] at ih ⊢

theorem mem_feasibleAssignments_iff {es : List Event} {a : List Bool} :
    a ∈ feasibleAssignments es ↔ a ∈ allAssignments es.length ∧ feasible es a := by
  unfold feasibleAssignments
  rw [List.mem_filter]
  simp

theorem replicate_mem_feasibleAssignments (es : List Event) :
    List.replicate es.length false ∈ feasibleAssignments es := by
  refine mem_feasibleAssignments_iff.mpr ⟨?_, feasible_replicate es _⟩
  have h := mem_allAssignments (List.replicate es.length false)
  simpa using h

theorem att_le_maxAttendance {es : List Event} {a : List Bool}
    (h1 : a.length = es.length) (h2 : feasible es a) : att a ≤ maxAttendance es := by
  apply listMaxBy_ge
  refine mem_feasibleAssignments_iff.mpr ⟨?_, h2⟩
  have := mem_allAssignments a
  rwa [h1] at this

theorem mem_optimalAssignments_iff {es : List Event} {a : List Bool} :
    a ∈ optimalAssignments es ↔ a ∈ feasibleAssignments es ∧ att a = maxAttendance es := by
  unfold optimalAssignments
  rw [List.mem_filter]
  simp

theorem feasibleAssignments_ne_nil (es : List Event) : feasibleAssignments es ≠ [] := by
  intro h
  have := replicate_mem_feasibleAssignments es
  rw [h] at this
  cases this

theorem optimalAssignments_ne_nil (es : List Event) : optimalAssignments es ≠ [] := by
  rcases listMaxBy_attained (f := att) (feasibleAssignments_ne_nil es) with ⟨x, hx, hfx⟩
  intro h
  have : x ∈ optimalAssignments es := mem_optimalAssignments_iff.mpr ⟨hx, hfx⟩
  rw [h] at this
  cases this

theorem find_getD_spec {l : List α} {p : α → Bool} (d : α)
    (h : ∃ x ∈ l, p x = true) :
    (l.find? p).getD d ∈ l ∧ p ((l.find? p).getD d) = true := by
  rcases h with ⟨x, hx, hp⟩
  cases hfind : l.find? p with
  | none =>
      exact absurd hp (by simpa using List.find?_eq_none.mp hfind x hx)
  | some y =>
      simp only [Option.getD_some]
      exact ⟨List.mem_of_find?_eq_some hfind, List.find?_some hfind⟩

theorem solveTwoPhase_spec (es : List Event) :
    solveTwoPhase es ∈ optimalAssignments es ∧
      commute es (solveTwoPhase es) = minCommute es := by
  have hne := optimalAssignments_ne_nil es
  rcases minOver_attained (f := commute es) hne with ⟨x, hx, hfx⟩
  have h := find_getD_spec (l := optimalAssignments es)
    (p := fun a => commute es a == minCommute es) (List.replicate es.length false)
    ⟨x, hx, by simpa using hfx⟩
  exact ⟨h.1, by simpa using h.2⟩

theorem solveTwoPhase_feasible (es : List Event) : feasible es (solveTwoPhase es) :=
  (mem_feasibleAssignments_iff.mp (mem_optimalAssignments_iff.mp (solveTwoPhase_spec es).1).1).2

theorem solveTwoPhase_att (es : List Event) : att (solveTwoPhase es) = maxAttendance es :=
  (mem_optimalAssignments_iff.mp (solveTwoPhase_spec es).1).2

theorem solveTwoPhase_length (es : List Event) : (solveTwoPhase es).length = es.length :=
  length_of_mem_allAssignments
    (mem_feasibleAssignments_iff.mp (mem_optimalAssignments_iff.mp (solveTwoPhase_spec es).1).1).1

/-- C1: for an ordered pair of occurrences `(p, q)` with `p.begin ≤ q.begin`,
the pairwise feasibility evaluated by the constraint loop holds iff
`q.begin ≥ p.end + transit_minutes(p, q)` and the titles differ, where the
transit minutes are the fixed same-venue constant 5 when the venues agree,
and the transit-table entry for `(p.venue, q.venue)` otherwise. -/
theorem C1_pair_feasibility (p q : Event) (_hpq : p.begin ≤ q.begin) :
    (p.venue = q.venue →
      (pairFeasible p q = true ↔ q.begin ≥ p.end_ + 5 ∧ p.title ≠ q.title)) ∧
    (∀ t : Int, p.venue ≠ q.venue →
      lookup2 transit_times p.venue q.venue = some t →
      (pairFeasible p q = true ↔ q.begin ≥ p.end_ + t ∧ p.title ≠ q.title)) := by
  constructor
  · intro hv
    simp [pairFeasible, Event.eta_from, Event.minutes_from, hv]
  · intro t hv hl
    have hv' : ¬ (q.venue = p.venue) := fun h => hv h.symm
    simp [pairFeasible, Event.eta_from, Event.minutes_from, hv', hl]

/-- Witness for C1 at a concrete cross-venue pair. -/
theorem C1_pair_feasibility_witness :
    (mkEvent "A" 100 60 "VUE").begin ≤ (mkEvent "B" 300 60 "FLH").begin ∧
    (mkEvent "A" 100 60 "VUE").venue ≠ (mkEvent "B" 300 60 "FLH").venue ∧
    lookup2 transit_times "VUE" "FLH" = some 30 ∧
    (pairFeasible (mkEvent "A" 100 60 "VUE") (mkEvent "B" 300 60 "FLH") = true ↔
      (mkEvent "B" 300 60 "FLH").begin ≥ (mkEvent "A" 100 60 "VUE").end_ + 30 ∧
      (mkEvent "A" 100 60 "VUE").title ≠ (mkEvent "B" 300 60 "FLH").title) :=
  ⟨by decide, by decide, by decide,
    (C1_pair_feasibility (mkEvent "A" 100 60 "VUE") (mkEvent "B" 300 60 "FLH")
      (by decide)).2 30 (by decide) (by decide)⟩

/-- C2: the attendance of the final returned assignment is the true maximum:
every assignment over the catalog satisfying all hard constraints has
attendance at most that of the returned assignment. -/
theorem C2_attendance_maximal (es : List Event) (a : List Bool)
    (h1 : a.length = es.length) (h2 : feasible es a) :
    att a ≤ att (solveTwoPhase es) := by
  rw [solveTwoPhase_att]
  exact att_le_maxAttendance h1 h2

/-- Witness for C2 on a concrete two-event catalog with a conflict. -/
theorem C2_attendance_maximal_witness :
    ([true, false] : List Bool).length =
      ([mkEvent "A" 0 60 "VUE", mkEvent "B" 30 60 "VUE"] : List Event).length ∧
    feasible [mkEvent "A" 0 60 "VUE", mkEvent "B" 30 60 "VUE"] [true, false] ∧
    att [true, false] ≤
      att (solveTwoPhase [mkEvent "A" 0 60 "VUE", mkEvent "B" 30 60 "VUE"]) :=
  ⟨by decide, by decide,
    C2_attendance_maximal [mkEvent "A" 0 60 "VUE", mkEvent "B" 30 60 "VUE"]
      [true, false] (by decide) (by decide)⟩

/-- C3: among all feasible assignments whose attendance equals the phase-1
maximum, the assignment returned by the second pass has minimal total
transit; the transit attributed to a cross-day transition is zero. -/
theorem C3_commute_minimal (es : List Event) (a : List Bool)
    (h1 : a.length = es.length) (h2 : feasible es a)
    (h3 : att a = maxAttendance es) :
    att (solveTwoPhase es) = maxAttendance es ∧
    commute es (solveTwoPhase es) ≤ commute es a ∧
    (∀ (b : List Bool) (j i : Nat), prevSelected b j = some i →
      (es.getD i default).date ≠ (es.getD j default).date →
      transitAt es b j = 0) := by
  refine ⟨solveTwoPhase_att es, ?_, ?_⟩
  · rw [(solveTwoPhase_spec es).2]
    apply minOver_le
    refine mem_optimalAssignments_iff.mpr ⟨mem_feasibleAssignments_iff.mpr ⟨?_, h2⟩, h3⟩
    have := mem_allAssignments a
    rwa [h1] at this
  · intro b j i hprev hdate
    unfold transitAt
    rw [hprev]
    by_cases hb : b.getD j false = true
    · rw [if_pos hb]
      show (if (es.getD i default).date = (es.getD j default).date
            then Event.minutes_from (es.getD j default) (es.getD i default) else 0) = 0
      rw [if_neg hdate]
    · rw [if_neg hb]

/-- Witness for C3 on a concrete two-event catalog with a conflict. -/
theorem C3_commute_minimal_witness :
    ([true, false] : List Bool).length =
      ([mkEvent "C" 0 60 "VUE", mkEvent "D" 30 60 "VUE"] : List Event).length ∧
    feasible [mkEvent "C" 0 60 "VUE", mkEvent "D" 30 60 "VUE"] [true, false] ∧
    att [true, false] =
      maxAttendance [mkEvent "C" 0 60 "VUE", mkEvent "D" 30 60 "VUE"] ∧
    (att (solveTwoPhase [mkEvent "C" 0 60 "VUE", mkEvent "D" 30 60 "VUE"]) =
      maxAttendance [mkEvent "C" 0 60 "VUE", mkEvent "D" 30 60 "VUE"] ∧
    commute [mkEvent "C" 0 60 "VUE", mkEvent "D" 30 60 "VUE"]
        (solveTwoPhase [mkEvent "C" 0 60 "VUE", mkEvent "D" 30 60 "VUE"]) ≤
      commute [mkEvent "C" 0 60 "VUE", mkEvent "D" 30 60 "VUE"] [true, false] ∧
    (∀ (b : List Bool) (j i : Nat), prevSelected b j = some i →
      (([mkEvent "C" 0 60 "VUE", mkEvent "D" 30 60 "VUE"] : List Event).getD i default).date ≠
        (([mkEvent "C" 0 60 "VUE", mkEvent "D" 30 60 "VUE"] : List Event).getD j default).date →
      transitAt [mkEvent "C" 0 60 "VUE", mkEvent "D" 30 60 "VUE"] b j = 0)) :=
  ⟨by decide, by decide, by decide,
    C3_commute_minimal [mkEvent "C" 0 60 "VUE", mkEvent "D" 30 60 "VUE"]
      [true, false] (by decide) (by decide) (by decide)⟩

/-- C4: the returned assignment satisfies every hard constraint: for every
index pair `i < j` in catalog order, if both are selected then the pair is
feasible — the check applies to every unordered pair, not only temporally
adjacent ones. -/
theorem C4_returned_feasible (es : List Event) :
    ∀ i j : Fin es.length, (i : Nat) < (j : Nat) →
      (solveTwoPhase es).getD i false = true →
      (solveTwoPhase es).getD j false = true →
      pairFeasible (es.get i) (es.get j) = true :=
  solveTwoPhase_feasible es

/-- Witness for C4 on a concrete catalog where both events get selected. -/
theorem C4_returned_feasible_witness :
    (0 : Nat) < 1 ∧
    (solveTwoPhase [mkEvent "A" 0 60 "VUE", mkEvent "B" 200 60 "VUE"]).getD 0 false = true ∧
    (solveTwoPhase [mkEvent "A" 0 60 "VUE", mkEvent "B" 200 60 "VUE"]).getD 1 false = true ∧
    pairFeasible
      (([mkEvent "A" 0 60 "VUE", mkEvent "B" 200 60 "VUE"] : List Event).get ⟨0, by decide⟩)
      (([mkEvent "A" 0 60 "VUE", mkEvent "B" 200 60 "VUE"] : List Event).get ⟨1, by decide⟩) = true :=
  ⟨by decide, by decide, by decide,
    C4_returned_feasible [mkEvent "A" 0 60 "VUE", mkEvent "B" 200 60 "VUE"]
      ⟨0, by decide⟩ ⟨1, by decide⟩ (by decide) (by decide) (by decide)⟩

/-- C5: for every catalog, the all-unselected assignment satisfies every hard
constraint and has attendance 0, so a feasible assignment always exists. -/
theorem C5_all_unselected_feasible (es : List Event) :
    feasible es (List.replicate es.length false) ∧
    att (List.replicate es.length false) = 0 ∧
    ∃ a : List Bool, a.length = es.length ∧ feasible es a ∧ att a = 0 :=
  ⟨feasible_replicate es es.length, att_replicate es.length,
    List.replicate es.length false, by simp,
    feasible_replicate es es.length, att_replicate es.length⟩

theorem prevSelected_eq_some_iff {a : List Bool} :
    ∀ {j i : Nat}, prevSelected a j = some i ↔
      i < j ∧ a.getD i false = true ∧ ∀ b, i < b → b < j → a.getD b false = false := by
  intro j
  induction j with
  | zero =>
      intro i
      constructor
      · intro h; cases h
      · rintro ⟨h, _, _⟩; omega
  | succ k ih =>
      intro i
      unfold prevSelected
      by_cases hk : a.getD k false = true
      · rw [if_pos hk]
        constructor
        · intro h
          rcases Option.some_inj.mp h with rfl
          exact ⟨Nat.lt_succ_self _, hk, fun b hb1 hb2 => by omega⟩
        · rintro ⟨h1, h2, h3⟩
          by_cases hik : i = k
          · subst hik; rfl
          · exfalso
            have hbk := h3 k (by omega) (Nat.lt_succ_self _)
            rw [hbk] at hk
            cases hk
      · rw [if_neg hk]
        constructor
        · intro h
          rcases ih.mp h with ⟨h1, h2, h3⟩
          refine ⟨by omega, h2, fun b hb1 hb2 => ?_⟩
          by_cases hbk : b = k
          · subst hbk
            revert hk
            cases a.getD b false <;> simp
          · exact h3 b hb1 (by omega)
        · rintro ⟨h1, h2, h3⟩
          apply ih.mpr
          have hik : i ≠ k := by
            intro hik
            subst hik
            exact hk h2
          exact ⟨by omega, h2, fun b hb1 hb2 => h3 b hb1 (by omega)⟩

theorem getD_append_last : ∀ a : List Bool, (a ++ [false]).getD a.length false = false := by
  intro a
  induction a with
  | nil => rfl
  | cons b t ih =>
      simp only [List.cons_append, List.length_cons, List.getD_cons_succ]
      exact ih

theorem feasible_append_false {es : List Event} {a : List Bool} {x : Event}
    (hlen : a.length = es.length) (hfeas : feasible es a) :
    feasible (es ++ [x]) (a ++ [false]) := by
  intro i j hij hi hj
  have hjlt : (j : Nat) < es.length + 1 := by simpa using j.isLt
  rcases Nat.lt_or_ge (j : Nat) es.length with hj' | hj'
  · have hi' : (i : Nat) < es.length := lt_trans hij hj'
    rw [List.getD_append a [false] false i (by omega)] at hi
    rw [List.getD_append a [false] false j (by omega)] at hj
    have h := hfeas ⟨i, hi'⟩ ⟨j, hj'⟩ hij hi hj
    have egi : (es ++ [x]).get i = es.get ⟨i, hi'⟩ := by
      rw [List.get_eq_getElem, List.get_eq_getElem]
      exact List.getElem_append_left hi'
    have egj : (es ++ [x]).get j = es.get ⟨j, hj'⟩ := by
      rw [List.get_eq_getElem, List.get_eq_getElem]
      exact List.getElem_append_left hj'
    rw [egi, egj]
    exact h
  · exfalso
    have hjeq : (j : Nat) = a.length := by omega
    have hfalse : (a ++ [false]).getD (j : Nat) false = false := by
      rw [hjeq]; exact getD_append_last a
    rw [hfalse] at hj
    cases hj

/-- C6: appending to the catalog an occurrence that is pairwise infeasible
with every other occurrence never decreases the optimal attendance
achievable over the rest of the occurrences. -/
theorem C6_attendance_monotone (es : List Event) (x : Event)
    (_hconf : ∀ p ∈ es, pairFeasible p x = false ∧ pairFeasible x p = false) :
    maxAttendance es ≤ maxAttendance (es ++ [x]) := by
  rcases listMaxBy_attained (f := att) (feasibleAssignments_ne_nil es) with ⟨b, hb, hatt⟩
  rcases mem_feasibleAssignments_iff.mp hb with ⟨hmem, hfeas⟩
  have hlen : b.length = es.length := length_of_mem_allAssignments hmem
  have hmem' : (b ++ [false]) ∈ feasibleAssignments (es ++ [x]) := by
    refine mem_feasibleAssignments_iff.mpr ⟨?_, feasible_append_false hlen hfeas⟩
    have hl : (b ++ [false]).length = (es ++ [x]).length := by simp [hlen]
    have := mem_allAssignments (b ++ [false])
    rwa [hl] at this
  have hattx : att (b ++ [false]) = att b := by
    simp [att, List.countP_append]
  calc maxAttendance es = att b := hatt.symm
    _ = att (b ++ [false]) := hattx.symm
    _ ≤ maxAttendance (es ++ [x]) := listMaxBy_ge hmem'

/-- Witness for C6: adding a duplicate-title occurrence that conflicts with
the only other occurrence. -/
theorem C6_attendance_monotone_witness :
    (∀ p ∈ ([mkEvent "A" 0 60 "VUE"] : List Event),
      pairFeasible p (mkEvent "A" 500 60 "FLH") = false ∧
      pairFeasible (mkEvent "A" 500 60 "FLH") p = false) ∧
    maxAttendance [mkEvent "A" 0 60 "VUE"] ≤
      maxAttendance ([mkEvent "A" 0 60 "VUE"] ++ [mkEvent "A" 500 60 "FLH"]) :=
  ⟨by decide,
    C6_attendance_monotone [mkEvent "A" 0 60 "VUE"] (mkEvent "A" 500 60 "FLH")
      (by decide)⟩

/-- C7 counterexample: `Event.__init__` performs no validation and has no
failure path.  Constructing an event with a zero duration and a venue absent
from the transit table succeeds: the fields are stored unchanged (so its
`end` equals its `begin`) and the venue has no row in the table, yet no
error of any kind occurs at construction time. -/
theorem C7_counterexample :
    (mkEvent "X" 100 0 "XYZ").running_time = 0 ∧
    (mkEvent "X" 100 0 "XYZ").end_ = (mkEvent "X" 100 0 "XYZ").begin ∧
    transit_times.lookup "XYZ" = none ∧
    (∀ b : String, lookup2 transit_times "XYZ" b = none) := by
  refine ⟨rfl, by decide, by decide, ?_⟩
  intro b
  unfold lookup2
  rw [show transit_times.lookup "XYZ" = none from by decide]
  rfl

/-- C7 amended: catalog construction never fails: `Event.__init__` performs
no duration or venue validation, storing the given fields unchanged with
`end = begin + running_time`, for every input — including non-positive
durations and venues absent from the transit table (an absent venue only
surfaces later, as a failed table lookup when a cross-venue transit is
computed). -/
theorem C7_construction_never_fails (title : String) (begin running_time : Int)
    (venue : String) :
    (mkEvent title begin running_time venue).title = title ∧
    (mkEvent title begin running_time venue).begin = begin ∧
    (mkEvent title begin running_time venue).running_time = running_time ∧
    (mkEvent title begin running_time venue).end_ = begin + running_time ∧
    (mkEvent title begin running_time venue).venue = venue :=
  ⟨rfl, rfl, rfl, rfl, rfl⟩

theorem lookup_mem {β : Type} :
    ∀ {l : List (String × β)} {a : String} {b : β}, l.lookup a = some b → (a, b) ∈ l := by
  intro l
  induction l with
  | nil => intro a b h; cases h
  | cons e t ih =>
      intro a b h
      rcases e with ⟨k, v⟩
      by_cases hk : a = k
      · subst hk
        simp only [List.lookup, beq_self_eq_true] at h
        rcases Option.some_inj.mp h with rfl
        exact List.mem_cons_self _ _
      · have hbeq : (a == k) = false := beq_eq_false_iff_ne.mpr hk
        simp only [List.lookup, hbeq] at h
        exact List.mem_cons_of_mem _ (ih h)

/-- C8: the load-time symmetry assertion passes on the concrete transit
table, and in general whenever the check succeeds, every venue pair present
in the table has the symmetric entry: `cost(a, b) = cost(b, a)`.
Contrapositively, the load fails whenever a present pair's reverse entry is
missing or different. -/
theorem C8_table_symmetric :
    symmetryCheck transit_times = true ∧
    (∀ (t : TransitTable) (a b : String) (c : Int),
      symmetryCheck t = true → lookup2 t a b = some c → lookup2 t b a = some c) := by
  refine ⟨by decide, ?_⟩
  intro t a b c hchk hl
  unfold lookup2 at hl
  cases hrow : t.lookup a with
  | none => rw [hrow] at hl; cases hl
  | some row =>
      rw [hrow] at hl
      have hl' : row.lookup b = some c := hl
      have hmemrow : (a, row) ∈ t := lookup_mem hrow
      have hmeme : (b, c) ∈ row := lookup_mem hl'
      unfold symmetryCheck at hchk
      have h1 : ((a, row).2.all fun e => lookup2 t e.1 (a, row).1 == some e.2) = true :=
        List.all_eq_true.mp hchk (a, row) hmemrow
      have h2 : (lookup2 t b a == some c) = true := by
        have := List.all_eq_true.mp h1 (b, c) hmeme
        simpa using this
      exact eq_of_beq h2

/-- Witness for C8 at a concrete table entry. -/
theorem C8_table_symmetric_witness :
    lookup2 transit_times "STA" "CAM" = some 20 ∧
    lookup2 transit_times "CAM" "STA" = some 20 :=
  ⟨by decide, C8_table_symmetric.2 transit_times "STA" "CAM" 20 (by decide) (by decide)⟩

theorem beginLE_trans :
    ∀ a b c : Event, beginLE a b = true → beginLE b c = true → beginLE a c = true := by
  intro a b c hab hbc
  simp only [beginLE, decide_eq_true_eq] at *
  omega

theorem beginLE_total : ∀ a b : Event, (beginLE a b || beginLE b a) = true := by
  intro a b
  simp only [beginLE, Bool.or_eq_true, decide_eq_true_eq]
  omega

/-- C9: the catalog consumed by the optimizer is the input list sorted
ascending by `begin`: it is a permutation of the input, pairwise ordered by
start time, and the sort is stable — any subsequence of the input already
ordered by `begin` (in particular, occurrences with tied starts, in input
order) remains a subsequence of the sorted catalog.  The optimizer indexes
the resulting `events` value directly, and as a pure value it is never
mutated after construction. -/
theorem C9_catalog_sorted :
    events.Perm inputEvents ∧
    events.Pairwise (fun a b => a.begin ≤ b.begin) ∧
    (∀ c : List Event, c.Pairwise (fun a b => a.begin ≤ b.begin) →
      c.Sublist inputEvents → c.Sublist events) := by
  refine ⟨List.mergeSort_perm inputEvents beginLE, ?_, ?_⟩
  · have h := List.sorted_mergeSort beginLE_trans beginLE_total inputEvents
    exact h.imp fun hab => by simpa [beginLE] using hab
  · intro c hc hsub
    apply List.sublist_mergeSort beginLE_trans beginLE_total ?_ hsub
    exact hc.imp fun hab => by simp [beginLE, hab]

/-- Witness for C9: a begin-ordered pair of input screenings survives into
the sorted catalog. -/
theorem C9_catalog_sorted_witness :
    ([mkEvent "Fogaréu" (august 16 16 30) 100 "VUE",
      mkEvent "Fogaréu" (august 17 19 0) 100 "FLH"] : List Event).Pairwise
        (fun a b => a.begin ≤ b.begin) ∧
    ([mkEvent "Fogaréu" (august 16 16 30) 100 "VUE",
      mkEvent "Fogaréu" (august 17 19 0) 100 "FLH"] : List Event).Sublist inputEvents ∧
    ([mkEvent "Fogaréu" (august 16 16 30) 100 "VUE",
      mkEvent "Fogaréu" (august 17 19 0) 100 "FLH"] : List Event).Sublist events :=
  ⟨by decide, by decide,
    C9_catalog_sorted.2.2
      [mkEvent "Fogaréu" (august 16 16 30) 100 "VUE",
       mkEvent "Fogaréu" (august 17 19 0) 100 "FLH"] (by decide) (by decide)⟩

theorem filmPairFeasible_toEvent (p q : Film) :
    filmPairFeasible p q = pairFeasible p.toEvent q.toEvent := rfl

theorem filmFeasible_map (fs : List Film) (a : List Bool) :
    filmFeasible fs a ↔ feasible (fs.map Film.toEvent) a := by
  unfold filmFeasible feasible
  constructor
  · intro h i j hij hi hj
    have hi' : (i : Nat) < fs.length := by simpa using i.isLt
    have hj' : (j : Nat) < fs.length := by simpa using j.isLt
    have hh := h ⟨i, hi'⟩ ⟨j, hj'⟩ hij hi hj
    rw [filmPairFeasible_toEvent] at hh
    have egi : (fs.map Film.toEvent).get i = (fs.get ⟨i, hi'⟩).toEvent := by
      rw [List.get_eq_getElem, List.get_eq_getElem]
      exact List.getElem_map _
    have egj : (fs.map Film.toEvent).get j = (fs.get ⟨j, hj'⟩).toEvent := by
      rw [List.get_eq_getElem, List.get_eq_getElem]
      exact List.getElem_map _
    rw [egi, egj]
    exact hh
  · intro h i j hij hi hj
    have hi' : (i : Nat) < (fs.map Film.toEvent).length := by simp
    have hj' : (j : Nat) < (fs.map Film.toEvent).length := by simp
    have hh := h ⟨i, hi'⟩ ⟨j, hj'⟩ hij hi hj
    rw [filmPairFeasible_toEvent]
    have egi : (fs.map Film.toEvent).get ⟨i, hi'⟩ = (fs.get i).toEvent := by
      rw [List.get_eq_getElem, List.get_eq_getElem]
      exact List.getElem_map _
    have egj : (fs.map Film.toEvent).get ⟨j, hj'⟩ = (fs.get j).toEvent := by
      rw [List.get_eq_getElem, List.get_eq_getElem]
      exact List.getElem_map _
    rw [egi, egj] at hh
    exact hh

theorem filmFeasibleAssignments_map (fs : List Film) :
    filmFeasibleAssignments fs = feasibleAssignments (fs.map Film.toEvent) := by
  unfold filmFeasibleAssignments feasibleAssignments
  rw [List.length_map]
  apply List.filter_congr
  intro a _
  exact decide_eq_decide.mpr (filmFeasible_map fs a)

theorem filmMaxAttendance_map (fs : List Film) :
    filmMaxAttendance fs = maxAttendance (fs.map Film.toEvent) := by
  unfold filmMaxAttendance maxAttendance
  rw [filmFeasibleAssignments_map]

theorem screenings_map_toEvent : screenings.map Film.toEvent = events := by
  unfold screenings events
  have h1 := @List.map_mergeSort Film Event filmBeginLE beginLE Film.toEvent
    inputScreenings (fun a _ b _ => rfl)
  rw [h1]
  rfl

/-- C10 counterexample: the shared catalog holds 31 screenings, not 29. -/
theorem C10_counterexample :
    events.length ≠ 29 ∧ events.length = 31 ∧ screenings.length = 31 := by
  refine ⟨?_, ?_, ?_⟩
  · simp [events, List.length_mergeSort, inputEvents]
  · simp [events, List.length_mergeSort, inputEvents]
  · simp [screenings, List.length_mergeSort, inputScreenings]

/-- C10 amended: the two source files build the same feasibility model over
the same catalog of 31 screenings (not 29): the sorted catalogs agree up to
the field-for-field `Film`-to-`Event` translation, the pairwise constraint
of `film_calendar.py` coincides with the pairwise constraint of
`calendarize.py`'s first pass on every pair, and the maximum attendance of
`film_calendar.py`'s model equals the phase-1 maximum of `calendarize.py`. -/
theorem C10_models_agree :
    events.length = 31 ∧
    screenings.map Film.toEvent = events ∧
    (∀ p q : Film, filmPairFeasible p q = pairFeasible p.toEvent q.toEvent) ∧
    filmMaxAttendance screenings = maxAttendance events := by
  refine ⟨?_, screenings_map_toEvent, filmPairFeasible_toEvent, ?_⟩
  · simp [events, List.length_mergeSort, inputEvents]
  · rw [filmMaxAttendance_map, screenings_map_toEvent]

end Calendarize
